import Mathlib

/-!
Verification of the mongodb-mcp repository.

The repository consists of three Python files:
* `server.py` — a FastMCP tool host exposing MongoDB query tools
  (`convert_objectids`, `execute_mongodb_query`, `get_users_by_city`, ...);
* `openai_client.py` — `MCPOpenAIClient` with `get_mcp_tools` and the
  orchestration loop `process_query`;
* `google_client.py` — `MCPGoogleClient` with `get_mcp_tools`
  (containing `clean_schema_recursive`) and its own `process_query`.

This file shallowly embeds those functions.  External collaborators
(the LLM provider, `json.loads`, the MCP tool-host session, pymongo's
cursor) are modelled as oracle parameters, exactly as the spec treats
them (opaque request/response functions).  Python exceptions raised by
library calls are modelled with `Except String`; exceptions the client
code itself would raise via illegal attribute/index access are modelled
as `Except.error` outcomes.
-/

/-- JSON-like values: the shape of MCP `inputSchema` trees.  Python dicts
are modelled as insertion-ordered association lists (Python 3.7+ dicts
preserve insertion order, and `clean_schema_recursive` iterates in that
order). -/
inductive JVal where
  | str : String → JVal
  | num : Int → JVal
  | bool : Bool → JVal
  | null : JVal
  | arr : List JVal → JVal
  | obj : List (String × JVal) → JVal

mutual

/-- Size measure used for the well-founded recursion of
`clean_schema_recursive`. -/
def JVal.size : JVal → Nat
  | .str _ => 1
  | .num _ => 1
  | .bool _ => 1
  | .null => 1
  | .arr l => 1 + JVal.sizeList l
  | .obj kvs => 1 + JVal.sizePairs kvs

def JVal.sizeList : List JVal → Nat
  | [] => 0
  | v :: rest => 1 + JVal.size v + JVal.sizeList rest

def JVal.sizePairs : List (String × JVal) → Nat
  | [] => 0
  | (_, v) :: rest => 1 + JVal.size v + JVal.sizePairs rest

end

theorem JVal.size_lt_of_mem_list {v : JVal} {l : List JVal} (h : v ∈ l) :
    JVal.size v < JVal.sizeList l := by
  induction l with
  | nil => cases h
  | cons a rest ih =>
    rcases List.mem_cons.mp h with h1 | h2
    · subst h1; simp [JVal.sizeList]; omega
    · have := ih h2; simp [JVal.sizeList]; omega

theorem JVal.size_lt_of_mem_pairs {k : String} {v : JVal}
    {kvs : List (String × JVal)} (h : (k, v) ∈ kvs) :
    JVal.size v < JVal.sizePairs kvs := by
  induction kvs with
  | nil => cases h
  | cons a rest ih =>
    rcases List.mem_cons.mp h with h1 | h2
    · rw [← h1]; simp [JVal.sizePairs]; omega
    · have := ih h2
      obtain ⟨k', v'⟩ := a
      simp [JVal.sizePairs]; omega

/-- Keys skipped unconditionally by `clean_schema_recursive`
(`if key in {"additional_properties", "additionalProperties", "examples"}: continue`). -/
def skippedKeys : List String :=
  ["additional_properties", "additionalProperties", "examples"]

/-- `key == "any_of" or key == "anyOf"`. -/
def isUnionKey (k : String) : Bool :=
  k == "any_of" || k == "anyOf"

/-- The test applied to each `option` of an `any_of`/`anyOf` list:
`isinstance(option, dict) and option.get("type") != "null"`.
(An absent `"type"` key compares unequal to `"null"`, hence counts as
non-null.) -/
def isNonNullDict : JVal → Bool
  | .obj kvs =>
    match kvs.lookup "type" with
    | some (.str s) => !(s == "null")
    | _ => true
  | _ => false

/-- The iteration `for option in value` over the value of an
`any_of`/`anyOf` key.  A JSON array contributes its elements.  Iterating
a dict yields its keys and iterating a string yields its characters;
neither ever produces a dict-shaped option, so both behave like the
empty option list (iterating a number/bool/None would raise `TypeError`
in Python; no claim exercises that case). -/
def unionOptions : JVal → List JVal
  | .arr l => l
  | _ => []

/-- `for option in value: if isinstance(option, dict) and
option.get("type") != "null": return ...` — the first option passing
`isNonNullDict`, if any. -/
def firstGoodOption : List JVal → Option JVal
  | [] => none
  | o :: rest => if isNonNullDict o then some o else firstGoodOption rest

theorem mem_of_firstGoodOption_eq_some {l : List JVal} {o : JVal}
    (h : firstGoodOption l = some o) : o ∈ l := by
  induction l with
  | nil => simp [firstGoodOption] at h
  | cons a rest ih =>
    by_cases ha : isNonNullDict a = true
    · simp only [firstGoodOption, ha, if_true] at h
      have ho : a = o := Option.some.inj h
      subst ho
      exact List.mem_cons_self a rest
    · simp only [firstGoodOption, ha, if_false] at h
      exact List.mem_cons_of_mem a (ih h)

/-- Scans an object's fields in insertion order for the first
`any_of`/`anyOf` key having an option that passes `isNonNullDict`;
returns that first passing option.  This is the early `return
clean_schema_recursive(option)` trigger inside the `for key, value in
schema.items()` loop of `clean_schema_recursive`. -/
def findUnionSubst : List (String × JVal) → Option JVal
  | [] => none
  | (k, v) :: rest =>
    if isUnionKey k then
      match firstGoodOption (unionOptions v) with
      | some opt => some opt
      | none => findUnionSubst rest
    else findUnionSubst rest

theorem findUnionSubst_size_lt {kvs : List (String × JVal)} {opt : JVal}
    (h : findUnionSubst kvs = some opt) :
    JVal.size opt < JVal.sizePairs kvs := by
  induction kvs with
  | nil => simp [findUnionSubst] at h
  | cons a rest ih =>
    obtain ⟨k, v⟩ := a
    by_cases hk : isUnionKey k = true
    · simp only [findUnionSubst, hk, if_true] at h
      cases hfind : firstGoodOption (unionOptions v) with
      | none =>
        rw [hfind] at h
        have := ih h
        simp [JVal.sizePairs]; omega
      | some o =>
        rw [hfind] at h
        have ho : o = opt := Option.some.inj h
        subst ho
        have hmem : o ∈ unionOptions v := mem_of_firstGoodOption_eq_some hfind
        have hlt : JVal.size o < JVal.size v := by
          cases v with
          | arr l =>
            have hol : o ∈ l := hmem
            have hlt2 := JVal.size_lt_of_mem_list hol
            simp [JVal.size]; omega
          | str s => simp [unionOptions] at hmem
          | num n => simp [unionOptions] at hmem
          | bool b => simp [unionOptions] at hmem
          | null => simp [unionOptions] at hmem
          | obj kvs => simp [unionOptions] at hmem
        simp [JVal.sizePairs]; omega
    · simp only [findUnionSubst, hk, if_false] at h
      have := ih h
      simp [JVal.sizePairs]; omega

mutual

/-- Embedding of `clean_schema_recursive` from
`MCPGoogleClient.get_mcp_tools` (google_client.py, lines 97–122).
On a dict: iterate fields in order; the first `any_of`/`anyOf` key whose
options contain a non-null dict short-circuits the whole node to the
recursively cleaned first such option (everything accumulated so far and
every later key is discarded); otherwise skipped keys and option-less
union keys are dropped and the remaining values cleaned recursively.
On a list: element-wise.  Leaves are returned unchanged. -/
def clean_schema_recursive : JVal → JVal
  | .obj kvs =>
    match h : findUnionSubst kvs with
    | some opt => clean_schema_recursive opt
    | none => .obj (cleanPairs kvs)
  | .arr l => .arr (cleanList l)
  | v => v
termination_by v => JVal.size v
decreasing_by
  all_goals first
  | (have hlt := findUnionSubst_size_lt h
     simp [JVal.size, JVal.sizePairs, JVal.sizeList]
     try omega)
  | (simp [JVal.size, JVal.sizePairs, JVal.sizeList]
     try omega)

/-- The field-by-field accumulation of `cleaned` for an object none of
whose union keys triggers substitution. -/
def cleanPairs : List (String × JVal) → List (String × JVal)
  | [] => []
  | (k, v) :: rest =>
    if skippedKeys.contains k || isUnionKey k then cleanPairs rest
    else (k, clean_schema_recursive v) :: cleanPairs rest
termination_by kvs => JVal.sizePairs kvs
decreasing_by
  all_goals (simp [JVal.size, JVal.sizePairs, JVal.sizeList]; try omega)

/-- `[clean_schema_recursive(item) for item in schema]`. -/
def cleanList : List JVal → List JVal
  | [] => []
  | v :: rest => clean_schema_recursive v :: cleanList rest
termination_by l => JVal.sizeList l
decreasing_by
  all_goals (simp [JVal.size, JVal.sizePairs, JVal.sizeList]; try omega)

end

/-- The fields `MCPGoogleClient.get_mcp_tools` keeps at the top level of
each tool's cleaned schema (google_client.py, lines 132–135). -/
def googleWhitelist : List String :=
  ["type", "properties", "required", "description", "title", "default", "enum"]

/-- The fields of a JSON object (`.items()`); `get_mcp_tools` only ever
applies this to the cleaned `inputSchema`, which is an object. -/
def objFields : JVal → List (String × JVal)
  | .obj kvs => kvs
  | _ => []

/-- The `parameters` value built for one tool by
`MCPGoogleClient.get_mcp_tools`: clean the whole `inputSchema`
recursively, then keep only whitelisted keys **at the top level**. -/
def google_tool_parameters (inputSchema : JVal) : List (String × JVal) :=
  (objFields (clean_schema_recursive inputSchema)).filter
    (fun kv => googleWhitelist.contains kv.1)

/-- The `parameters` value built for one tool by
`MCPOpenAIClient.get_mcp_tools` (openai_client.py, lines 70–81): the raw
`tool.inputSchema`, passed through without any normalization. -/
def openai_tool_parameters (inputSchema : JVal) : JVal := inputSchema

mutual

/-- No node of the value (dicts at any depth) carries a key dropped by
`clean_schema_recursive`: neither a skipped key nor `any_of`/`anyOf`. -/
def noBadKeys : JVal → Bool
  | .obj kvs => noBadKeysPairs kvs
  | .arr l => noBadKeysList l
  | _ => true

def noBadKeysPairs : List (String × JVal) → Bool
  | [] => true
  | (k, v) :: rest =>
    !(skippedKeys.contains k) && !(isUnionKey k) && noBadKeys v &&
      noBadKeysPairs rest

def noBadKeysList : List JVal → Bool
  | [] => true
  | v :: rest => noBadKeys v && noBadKeysList rest

end

mutual

/-- No node of the value carries an `any_of`/`anyOf` key. -/
def noUnionKeys : JVal → Bool
  | .obj kvs => noUnionKeysPairs kvs
  | .arr l => noUnionKeysList l
  | _ => true

def noUnionKeysPairs : List (String × JVal) → Bool
  | [] => true
  | (k, v) :: rest => !(isUnionKey k) && noUnionKeys v && noUnionKeysPairs rest

def noUnionKeysList : List JVal → Bool
  | [] => true
  | v :: rest => noUnionKeys v && noUnionKeysList rest

end

mutual

/-- Every dict node of the value, at any depth, has all of its keys in
`googleWhitelist`.  This is the "field set is a subset of the provider
whitelist, recursively" reading of the spec. -/
def allKeysWhitelisted : JVal → Bool
  | .obj kvs => allKeysWhitelistedPairs kvs
  | .arr l => allKeysWhitelistedList l
  | _ => true

def allKeysWhitelistedPairs : List (String × JVal) → Bool
  | [] => true
  | (k, v) :: rest =>
    googleWhitelist.contains k && allKeysWhitelisted v &&
      allKeysWhitelistedPairs rest

def allKeysWhitelistedList : List JVal → Bool
  | [] => true
  | v :: rest => allKeysWhitelisted v && allKeysWhitelistedList rest

end

mutual

/-- `clean_schema_recursive` never leaves a skipped key or an
`any_of`/`anyOf` key at any node of its output. -/
theorem noBadKeys_clean (v : JVal) : noBadKeys (clean_schema_recursive v) = true := by
  cases v with
  | obj kvs =>
    cases h : findUnionSubst kvs with
    | some opt =>
      rw [clean_schema_recursive, h]
      exact noBadKeys_clean opt
    | none =>
      rw [clean_schema_recursive, h]
      simpa [noBadKeys] using noBadKeysPairs_cleanPairs kvs
  | arr l =>
    rw [clean_schema_recursive]
    simpa [noBadKeys] using noBadKeysList_cleanList l
  | str s => simp [clean_schema_recursive, noBadKeys]
  | num n => simp [clean_schema_recursive, noBadKeys]
  | bool b => simp [clean_schema_recursive, noBadKeys]
  | null => simp [clean_schema_recursive, noBadKeys]
termination_by JVal.size v
decreasing_by
  all_goals first
  | (have hlt := findUnionSubst_size_lt h
     simp [JVal.size, JVal.sizePairs, JVal.sizeList]
     try omega)
  | (simp [JVal.size, JVal.sizePairs, JVal.sizeList]
     try omega)

theorem noBadKeysPairs_cleanPairs (kvs : List (String × JVal)) :
    noBadKeysPairs (cleanPairs kvs) = true := by
  cases kvs with
  | nil => simp [cleanPairs, noBadKeysPairs]
  | cons a rest =>
    obtain ⟨k, v⟩ := a
    by_cases hk : (skippedKeys.contains k || isUnionKey k) = true
    · rw [cleanPairs, if_pos hk]
      exact noBadKeysPairs_cleanPairs rest
    · rw [cleanPairs, if_neg hk]
      have h1 : skippedKeys.contains k = false := by
        revert hk; cases skippedKeys.contains k <;> simp
      have h2 : isUnionKey k = false := by
        revert hk; cases isUnionKey k <;> simp
      simp only [noBadKeysPairs, h1, h2, Bool.not_false, Bool.true_and]
      rw [noBadKeys_clean v, noBadKeysPairs_cleanPairs rest]
      rfl
termination_by JVal.sizePairs kvs
decreasing_by
  all_goals (simp [JVal.size, JVal.sizePairs, JVal.sizeList]; try omega)

theorem noBadKeysList_cleanList (l : List JVal) :
    noBadKeysList (cleanList l) = true := by
  cases l with
  | nil => simp [cleanList, noBadKeysList]
  | cons v rest =>
    rw [cleanList]
    simp only [noBadKeysList]
    rw [noBadKeys_clean v, noBadKeysList_cleanList rest]
    rfl
termination_by JVal.sizeList l
decreasing_by
  all_goals (simp [JVal.size, JVal.sizePairs, JVal.sizeList]; try omega)

end

mutual

/-- A value without any dropped-class key in particular has no
`any_of`/`anyOf` key anywhere. -/
theorem noUnionKeys_of_noBadKeys (v : JVal) (h : noBadKeys v = true) :
    noUnionKeys v = true := by
  cases v with
  | obj kvs => exact noUnionKeysPairs_of_noBadKeysPairs kvs (by simpa [noBadKeys] using h)
  | arr l =>
    simp only [noUnionKeys]
    exact noUnionKeysList_of_noBadKeysList l (by simpa [noBadKeys] using h)
  | str s => rfl
  | num n => rfl
  | bool b => rfl
  | null => rfl

theorem noUnionKeysPairs_of_noBadKeysPairs (kvs : List (String × JVal))
    (h : noBadKeysPairs kvs = true) : noUnionKeysPairs kvs = true := by
  cases kvs with
  | nil => rfl
  | cons a rest =>
    obtain ⟨k, v⟩ := a
    simp only [noBadKeysPairs, Bool.and_eq_true, Bool.not_eq_true'] at h
    obtain ⟨⟨⟨h1, h2⟩, h3⟩, h4⟩ := h
    simp only [noUnionKeysPairs, h2, Bool.not_false, Bool.true_and, Bool.and_eq_true]
    exact ⟨noUnionKeys_of_noBadKeys v h3, noUnionKeysPairs_of_noBadKeysPairs rest h4⟩

theorem noUnionKeysList_of_noBadKeysList (l : List JVal)
    (h : noBadKeysList l = true) : noUnionKeysList l = true := by
  cases l with
  | nil => rfl
  | cons v rest =>
    simp only [noBadKeysList, Bool.and_eq_true] at h
    simp only [noUnionKeysList, Bool.and_eq_true]
    exact ⟨noUnionKeys_of_noBadKeys v h.1, noUnionKeysList_of_noBadKeysList rest h.2⟩

end

/-- Every key surviving the top-level filter of
`MCPGoogleClient.get_mcp_tools` is in the whitelist. -/
theorem google_tool_parameters_keys (inputSchema : JVal) :
    (google_tool_parameters inputSchema).all
      (fun kv => googleWhitelist.contains kv.1) = true := by
  rw [List.all_eq_true]
  intro kv hkv
  exact (List.mem_filter.mp hkv).2

/-- The response contract of the MCP tool host
(`session.call_tool(name, arguments)`): a list of text content blocks
plus an error flag (`result.content`, `result.isError`). -/
structure ToolResponse where
  content : List String
  isError : Bool
deriving DecidableEq, Repr

/-- `content = ""; for text_content in result.content: content +=
text_content.text + "\n"` — newline-terminated concatenation of the
content blocks, identical in both clients. -/
def concatBlocks : List String → String
  | [] => ""
  | t :: rest => t ++ "\n" ++ concatBlocks rest

/-- One entry of `response.choices[0].message.tool_calls` in the OpenAI
client: provider-assigned id, tool name, and the raw JSON-text argument
payload (`tool_call.function.arguments` is always a string in the OpenAI
API). -/
structure OAToolCall where
  id : String
  name : String
  arguments : String
deriving DecidableEq, Repr

/-- One entry of the `messages` list of
`MCPOpenAIClient.process_query`: the system and user dicts, the
assistant message object appended each iteration, and the
`{"role": "tool", "tool_call_id": ..., "content": ...}` dicts. -/
inductive OAMsg where
  | system (content : String)
  | user (content : String)
  | assistant (content : Option String) (tool_calls : List OAToolCall)
  | tool (tool_call_id : String) (content : String)
deriving DecidableEq, Repr

/-- `response.choices[0].message` of one OpenAI chat-completions call:
optional text content plus the (possibly empty) list of tool calls.
`assistant_message.tool_calls` is falsy exactly when this list is
empty. -/
structure OAResponse where
  content : Option String
  tool_calls : List OAToolCall
deriving DecidableEq, Repr

/-- The external collaborators of `MCPOpenAIClient.process_query`,
modelled as oracles:
* `model b msgs` — the chat-completions call on transcript `msgs`;
  `b = true` for the in-loop call (tools passed, `tool_choice="auto"`),
  `b = false` for the final forced call (no tools, `tool_choice="none"`);
* `callTool name args` — `session.call_tool`; `Except.error e` models a
  raised exception with message `str(e)`;
* `parseJson s` — `json.loads(s)`; `Except.error e` models a raised
  `JSONDecodeError` with message `str(e)`. -/
structure OAEnv where
  model : Bool → List OAMsg → OAResponse
  callTool : String → JVal → Except String ToolResponse
  parseJson : String → Except String JVal

/-- The body of the per-tool-call `try`/`except` block of
`MCPOpenAIClient.process_query` (openai_client.py, lines 183–206):
parse the arguments, call the tool, concatenate the content blocks, and
append a `role="tool"` message; any exception is downgraded to a
`role="tool"` message carrying `"Error executing tool: ..."`.
Note that `result.isError` is never consulted: an error-flagged tool
response is appended exactly like a successful one. -/
def oaToolMsg (env : OAEnv) (tc : OAToolCall) : OAMsg :=
  match env.parseJson tc.arguments with
  | .error e => .tool tc.id ("Error executing tool: " ++ e)
  | .ok args =>
    match env.callTool tc.name args with
    | .error e => .tool tc.id ("Error executing tool: " ++ e)
    | .ok r => .tool tc.id (concatBlocks r.content)

/-- Result of a `process_query` run in the OpenAI client: the returned
answer (`assistant_message.content`, possibly `None`), the number of
chat-completions calls made, and the final state of `messages`. -/
structure OAOutcome where
  answer : Option String
  modelCalls : Nat
  transcript : List OAMsg
deriving DecidableEq, Repr

/-- The `while iteration_count < max_iterations` loop of
`MCPOpenAIClient.process_query` (lines 160–221), with `iterLeft =
max_iterations - iteration_count` and `calls` counting the API calls
made so far.  Each iteration: call the model, append the assistant
message, return its content if it has no tool calls, otherwise execute
every tool call in order, append each result, and continue.  When the
iterations are exhausted, one final call without tools is made and its
content returned. -/
def oaLoop (env : OAEnv) (messages : List OAMsg) (iterLeft : Nat)
    (calls : Nat) : OAOutcome :=
  match iterLeft with
  | 0 =>
    let r := env.model false messages
    ⟨r.content, calls + 1, messages⟩
  | n + 1 =>
    let r := env.model true messages
    let withAssistant := messages ++ [OAMsg.assistant r.content r.tool_calls]
    if r.tool_calls.isEmpty then
      ⟨r.content, calls + 1, withAssistant⟩
    else
      oaLoop env (withAssistant ++ r.tool_calls.map (oaToolMsg env)) n (calls + 1)

/-- The literal system-prompt content of `MCPOpenAIClient.process_query`
is irrelevant to every claim; only its position as the first
conversation turn matters. -/
def oaSystemPrompt : String :=
  "You are an AI assistant with access to tools."

/-- `MCPOpenAIClient.process_query(query, max_iterations)`
(openai_client.py, lines 83–221): build the initial transcript
(system prompt, then the user query) and run the iteration loop. -/
def oaProcessQuery (env : OAEnv) (query : String) (max_iterations : Nat) :
    OAOutcome :=
  oaLoop env [OAMsg.system oaSystemPrompt, OAMsg.user query] max_iterations 0

/-- The argument payload `fc.args` of a Gemini function call: the code
distinguishes `type(fc.args) != dict` (textual payload to be parsed with
`json.loads`) from an already-parsed dict. -/
inductive GArgs where
  | parsed (v : JVal)
  | raw (s : String)

/-- A `function_call` part of a Gemini response (`part.function_call`):
tool name and argument payload. -/
structure GFunctionCall where
  name : String
  args : GArgs

/-- The dict passed as `response=` to
`types.Part.from_function_response`: either `{"result": content}` or
`{"error": content}`. -/
inductive GPartResponse where
  | result (content : String)
  | error (content : String)

/-- A `types.Part` of a Gemini content: optional text, optional function
call, optional function response (only one is populated in this
program). -/
structure GPart where
  text : Option String
  function_call : Option GFunctionCall
  function_response : Option (String × GPartResponse)

/-- A `types.Content` entry of the `contents` transcript: a role plus a
list of parts. -/
structure GContent where
  role : String
  parts : List GPart

/-- A text-only part, as in the initial `types.Part(text=query)`. -/
def GPart.ofText (s : String) : GPart := ⟨some s, none, none⟩

/-- A function-call part. -/
def GPart.ofCall (fc : GFunctionCall) : GPart := ⟨none, some fc, none⟩

/-- `types.Part.from_function_response(name=..., response=...)`. -/
def GPart.ofResponse (name : String) (resp : GPartResponse) : GPart :=
  ⟨none, none, some (name, resp)⟩

/-- External collaborators of `MCPGoogleClient.process_query`:
* `model b contents` — `generate_content`, returning
  `response.candidates[0].content`; `b = true` for the in-loop call
  (system instruction, temperature 0, tools) and `b = false` for the
  final call after exhaustion, which passes no config and hence no
  tools;
* `callTool`, `parseJson` — as in `OAEnv`. -/
structure GEnv where
  model : Bool → List GContent → GContent
  callTool : String → JVal → Except String ToolResponse
  parseJson : String → Except String JVal

/-- The per-function-call `try`/`except` block of
`MCPGoogleClient.process_query` (google_client.py, lines 214–237):
parse the arguments unless already a dict, call the tool, concatenate
the content blocks; an error-flagged tool response becomes
`{"error": content}`, a successful one `{"result": content}`, and any
raised exception becomes `{"error": "Error executing tool: ..."}`. -/
def gToolPart (env : GEnv) (fc : GFunctionCall) : GPart :=
  let parsedArgs : Except String JVal :=
    match fc.args with
    | .parsed v => .ok v
    | .raw s => env.parseJson s
  match parsedArgs with
  | .error e => GPart.ofResponse fc.name (.error ("Error executing tool: " ++ e))
  | .ok args =>
    match env.callTool fc.name args with
    | .error e => GPart.ofResponse fc.name (.error ("Error executing tool: " ++ e))
    | .ok r =>
      if r.isError then GPart.ofResponse fc.name (.error (concatBlocks r.content))
      else GPart.ofResponse fc.name (.result (concatBlocks r.content))

/-- The message produced by evaluating
`final_response.choices[0].message.content` on a
`google.genai` `GenerateContentResponse`, which has `candidates` but no
`choices` attribute (the same function reads
`response.candidates[0].content` a few lines earlier): the attribute
access raises. -/
def gFinalCallError : String :=
  "AttributeError: GenerateContentResponse object has no attribute choices"

/-- Result of a `process_query` run in the Google client.  `answer` is
`Except.error msg` when the run raises an exception out of
`process_query` instead of returning. -/
structure GOutcome where
  answer : Except String (Option String)
  modelCalls : Nat
  transcript : List GContent

/-- The `while iteration_count < max_iterations` loop of
`MCPGoogleClient.process_query` (google_client.py, lines 184–255).
Each iteration: call the model; if no part carries a function call,
return `assistant_message.parts[0].text` (raising `IndexError` when
`parts` is empty) *without* appending the assistant message; otherwise
append the assistant message, build one `role="function"` content
holding the responses of all function calls in order, append it if
non-empty, and continue.  On exhaustion one final model call without
tools is made, after which `final_response.choices` raises
`AttributeError` (see `gFinalCallError`). -/
def gLoop (env : GEnv) (contents : List GContent) (iterLeft : Nat)
    (calls : Nat) : GOutcome :=
  match iterLeft with
  | 0 =>
    let _finalResponse := env.model false contents
    ⟨.error gFinalCallError, calls + 1, contents⟩
  | n + 1 =>
    let am := env.model true contents
    if am.parts.any (fun p => p.function_call.isSome) then
      let withAssistant := contents ++ [am]
      let fcParts := am.parts.filterMap
        (fun p => p.function_call.map (gToolPart env))
      let withResponses :=
        if fcParts.isEmpty then withAssistant
        else withAssistant ++ [⟨"function", fcParts⟩]
      gLoop env withResponses n (calls + 1)
    else
      match am.parts with
      | [] => ⟨.error "IndexError: list index out of range", calls + 1, contents⟩
      | p :: _ => ⟨.ok p.text, calls + 1, contents⟩

/-- `MCPGoogleClient.process_query(query, max_iterations)`
(google_client.py, lines 147–255): the initial transcript is the single
user content with the query text (the system instruction travels in the
request config, not in `contents`). -/
def gProcessQuery (env : GEnv) (query : String) (max_iterations : Nat) :
    GOutcome :=
  gLoop env [⟨"user", [GPart.ofText query]⟩] max_iterations 0

/-- Python values handled by `convert_objectids` in server.py: lists,
dicts (string keys, as in MongoDB documents), `bson.ObjectId` (carrying
its 24-character hex representation, which is exactly what `str(obj)`
produces), and the remaining leaves. -/
inductive MVal where
  | list (l : List MVal)
  | dict (d : List (String × MVal))
  | objectId (hex : String)
  | mstr (s : String)
  | mint (i : Int)
  | mbool (b : Bool)
  | mnull

mutual

/-- Embedding of `convert_objectids` (server.py, lines 12–20): recurse
into lists and dicts (values only; keys are untouched), turn every
`ObjectId` into `str(obj)`, and return every other value unchanged. -/
def convert_objectids : MVal → MVal
  | .list l => .list (convertMList l)
  | .dict d => .dict (convertMPairs d)
  | .objectId hex => .mstr hex
  | .mstr s => .mstr s
  | .mint i => .mint i
  | .mbool b => .mbool b
  | .mnull => .mnull

/-- `[convert_objectids(item) for item in obj]`. -/
def convertMList : List MVal → List MVal
  | [] => []
  | v :: rest => convert_objectids v :: convertMList rest

/-- `{k: convert_objectids(v) for k, v in obj.items()}`. -/
def convertMPairs : List (String × MVal) → List (String × MVal)
  | [] => []
  | (k, v) :: rest => (k, convert_objectids v) :: convertMPairs rest

end

mutual

/-- Some `ObjectId` occurs somewhere in the value. -/
def hasObjectId : MVal → Bool
  | .list l => hasObjectIdList l
  | .dict d => hasObjectIdPairs d
  | .objectId _ => true
  | _ => false

def hasObjectIdList : List MVal → Bool
  | [] => false
  | v :: rest => hasObjectId v || hasObjectIdList rest

def hasObjectIdPairs : List (String × MVal) → Bool
  | [] => false
  | (_, v) :: rest => hasObjectId v || hasObjectIdPairs rest

end

/-- Embedding of the query core shared by `execute_mongodb_query`
(server.py, lines 96–126) and `get_users_by_city` (lines 157–180).
The pymongo pieces are oracles:
* `collection` — the stored documents, in natural order;
* `queryMatches` — the filter semantics of `collection.find(query, …)`;
* `projection` — the per-document projection applied by `find` when a
  projection dict is given (`None` keeps documents whole);
* `sort` — the reordering performed by `cursor.sort(sort)` when a sort
  list is given.
The limit is applied through Python truthiness — `if limit: cursor =
cursor.limit(limit)` — so `None` and `0` both leave the cursor
unlimited; a truthy limit keeps the first `|limit|` documents
(pymongo's `Cursor.limit` uses the magnitude of its argument).
Finally the materialized list is passed through `convert_objectids`. -/
def mongoQueryCore (collection : List MVal) (queryMatches : MVal → Bool)
    (projection : Option (MVal → MVal)) (limit : Option Int)
    (sort : Option (List MVal → List MVal)) : List MVal :=
  let cursor := (collection.filter queryMatches).map
    (fun doc => match projection with | some p => p doc | none => doc)
  let cursor := match sort with | some s => s cursor | none => cursor
  let cursor :=
    match limit with
    | some n => if n ≠ 0 then cursor.take n.natAbs else cursor
    | none => cursor
  convertMList cursor

/-- `execute_mongodb_query(query, …, projection, limit, sort)`: filter
by the given query, then project, sort, apply the truthy-guarded limit,
and convert ObjectIds. -/
def execute_mongodb_query (collection : List MVal)
    (queryMatches : MVal → Bool) (projection : Option (MVal → MVal))
    (limit : Option Int) (sort : Option (List MVal → List MVal)) :
    List MVal :=
  mongoQueryCore collection queryMatches projection limit sort

/-- `get_users_by_city(city, projection, limit, sort)`: identical cursor
pipeline over the fixed `UsersDB.users` collection, with the filter
`{"address.city": {"$regex": city, "$options": "i"}}` abstracted as the
oracle `cityMatches` (regex semantics live in MongoDB). -/
def get_users_by_city (users : List MVal) (cityMatches : MVal → Bool)
    (projection : Option (MVal → MVal)) (limit : Option Int)
    (sort : Option (List MVal → List MVal)) : List MVal :=
  mongoQueryCore users cityMatches projection limit sort

theorem oaLoop_calls_le (env : OAEnv) :
    ∀ (n : Nat) (messages : List OAMsg) (calls : Nat),
      (oaLoop env messages n calls).modelCalls ≤ calls + n + 1 := by
  intro n
  induction n with
  | zero => intro messages calls; simp [oaLoop]
  | succ m ih =>
    intro messages calls
    rw [oaLoop]
    cases h : (env.model true messages).tool_calls.isEmpty with
    | true => simp [h]
    | false =>
      simp only [h, Bool.false_eq_true, if_false]
      have := ih
        ((messages ++ [OAMsg.assistant (env.model true messages).content
            (env.model true messages).tool_calls]) ++
          (env.model true messages).tool_calls.map (oaToolMsg env))
        (calls + 1)
      omega

theorem gLoop_calls_le (env : GEnv) :
    ∀ (n : Nat) (contents : List GContent) (calls : Nat),
      (gLoop env contents n calls).modelCalls ≤ calls + n + 1 := by
  intro n
  induction n with
  | zero => intro contents calls; simp [gLoop]
  | succ m ih =>
    intro contents calls
    rw [gLoop]
    cases h : (env.model true contents).parts.any
        (fun p => p.function_call.isSome) with
    | true =>
      simp only [h, if_true]
      refine le_trans (ih _ (calls + 1)) ?_
      omega
    | false =>
      simp only [h, Bool.false_eq_true, if_false]
      cases (env.model true contents).parts with
      | nil => simp
      | cons p rest => simp

theorem oaLoop_transcript_extends (env : OAEnv) :
    ∀ (n : Nat) (messages : List OAMsg) (calls : Nat),
      ∃ t, (oaLoop env messages n calls).transcript = messages ++ t := by
  intro n
  induction n with
  | zero =>
    intro messages calls
    exact ⟨[], by simp [oaLoop]⟩
  | succ m ih =>
    intro messages calls
    rw [oaLoop]
    cases h : (env.model true messages).tool_calls.isEmpty with
    | true =>
      exact ⟨[OAMsg.assistant (env.model true messages).content
        (env.model true messages).tool_calls], by simp [h]⟩
    | false =>
      simp only [h, Bool.false_eq_true, if_false]
      obtain ⟨t, ht⟩ := ih
        ((messages ++ [OAMsg.assistant (env.model true messages).content
            (env.model true messages).tool_calls]) ++
          (env.model true messages).tool_calls.map (oaToolMsg env))
        (calls + 1)
      refine ⟨[OAMsg.assistant (env.model true messages).content
          (env.model true messages).tool_calls] ++
        (env.model true messages).tool_calls.map (oaToolMsg env) ++ t, ?_⟩
      rw [ht]
      simp

theorem gLoop_transcript_extends (env : GEnv) :
    ∀ (n : Nat) (contents : List GContent) (calls : Nat),
      ∃ t, (gLoop env contents n calls).transcript = contents ++ t := by
  intro n
  induction n with
  | zero =>
    intro contents calls
    exact ⟨[], by simp [gLoop]⟩
  | succ m ih =>
    intro contents calls
    rw [gLoop]
    cases h : (env.model true contents).parts.any
        (fun p => p.function_call.isSome) with
    | true =>
      simp only [h, if_true]
      cases hfc : ((env.model true contents).parts.filterMap
          (fun p => p.function_call.map (gToolPart env))).isEmpty with
      | true =>
        simp only [hfc, if_true]
        obtain ⟨t, ht⟩ := ih (contents ++ [env.model true contents]) (calls + 1)
        exact ⟨[env.model true contents] ++ t, by rw [ht]; simp⟩
      | false =>
        simp only [hfc, Bool.false_eq_true, if_false]
        obtain ⟨t, ht⟩ := ih
          ((contents ++ [env.model true contents]) ++
            [⟨"function", (env.model true contents).parts.filterMap
              (fun p => p.function_call.map (gToolPart env))⟩]) (calls + 1)
        refine ⟨[env.model true contents] ++
          [⟨"function", (env.model true contents).parts.filterMap
            (fun p => p.function_call.map (gToolPart env))⟩] ++ t, ?_⟩
        rw [ht]
        simp
    | false =>
      simp only [h, Bool.false_eq_true, if_false]
      cases (env.model true contents).parts with
      | nil => exact ⟨[], by simp⟩
      | cons p rest => exact ⟨[], by simp⟩

mutual

/-- The output of `convert_objectids` contains no `ObjectId` anywhere. -/
theorem hasObjectId_convert (v : MVal) :
    hasObjectId (convert_objectids v) = false := by
  cases v with
  | list l => simpa [convert_objectids, hasObjectId] using hasObjectIdList_convert l
  | dict d => simpa [convert_objectids, hasObjectId] using hasObjectIdPairs_convert d
  | objectId hex => rfl
  | mstr s => rfl
  | mint i => rfl
  | mbool b => rfl
  | mnull => rfl

theorem hasObjectIdList_convert (l : List MVal) :
    hasObjectIdList (convertMList l) = false := by
  cases l with
  | nil => rfl
  | cons v rest =>
    simp only [convertMList, hasObjectIdList, Bool.or_eq_false_iff]
    exact ⟨hasObjectId_convert v, hasObjectIdList_convert rest⟩

theorem hasObjectIdPairs_convert (d : List (String × MVal)) :
    hasObjectIdPairs (convertMPairs d) = false := by
  cases d with
  | nil => rfl
  | cons a rest =>
    obtain ⟨k, v⟩ := a
    simp only [convertMPairs, hasObjectIdPairs, Bool.or_eq_false_iff]
    exact ⟨hasObjectId_convert v, hasObjectIdPairs_convert rest⟩

end

mutual

/-- On ObjectId-free input, `convert_objectids` is the identity: every
non-ObjectId leaf, every dict key, every list and its order are left
unchanged. -/
theorem convert_eq_self_of_no_objectId (v : MVal)
    (h : hasObjectId v = false) : convert_objectids v = v := by
  cases v with
  | list l =>
    rw [convert_objectids,
      convertMList_eq_self_of_no_objectId l (by simpa [hasObjectId] using h)]
  | dict d =>
    rw [convert_objectids,
      convertMPairs_eq_self_of_no_objectId d (by simpa [hasObjectId] using h)]
  | objectId hex => simp [hasObjectId] at h
  | mstr s => rfl
  | mint i => rfl
  | mbool b => rfl
  | mnull => rfl

theorem convertMList_eq_self_of_no_objectId (l : List MVal)
    (h : hasObjectIdList l = false) : convertMList l = l := by
  cases l with
  | nil => rfl
  | cons v rest =>
    simp only [hasObjectIdList, Bool.or_eq_false_iff] at h
    rw [convertMList, convert_eq_self_of_no_objectId v h.1,
      convertMList_eq_self_of_no_objectId rest h.2]

theorem convertMPairs_eq_self_of_no_objectId (d : List (String × MVal))
    (h : hasObjectIdPairs d = false) : convertMPairs d = d := by
  cases d with
  | nil => rfl
  | cons a rest =>
    obtain ⟨k, v⟩ := a
    simp only [hasObjectIdPairs, Bool.or_eq_false_iff] at h
    rw [convertMPairs, convert_eq_self_of_no_objectId v h.1,
      convertMPairs_eq_self_of_no_objectId rest h.2]

end

/-- `convert_objectids` keeps dict keys, in order. -/
theorem convertMPairs_keys (d : List (String × MVal)) :
    (convertMPairs d).map Prod.fst = d.map Prod.fst := by
  induction d with
  | nil => rfl
  | cons a rest ih =>
    obtain ⟨k, v⟩ := a
    simp [convertMPairs, ih]

/-- `convert_objectids` keeps the length (hence positions) of lists. -/
theorem convertMList_length (l : List MVal) :
    (convertMList l).length = l.length := by
  induction l with
  | nil => rfl
  | cons v rest ih => simp [convertMList, ih]

theorem findUnionSubst_append_of_no_union (pre rest : List (String × JVal))
    (hpre : pre.all (fun kv => !(isUnionKey kv.1)) = true) :
    findUnionSubst (pre ++ rest) = findUnionSubst rest := by
  induction pre with
  | nil => rfl
  | cons a tail ih =>
    obtain ⟨k, v⟩ := a
    simp only [List.all_cons, Bool.and_eq_true, Bool.not_eq_true'] at hpre
    rw [List.cons_append, findUnionSubst]
    simp only [hpre.1, Bool.false_eq_true, if_false]
    exact ih (by simpa using hpre.2)

theorem clean_of_findUnionSubst_some {kvs : List (String × JVal)} {opt : JVal}
    (h : findUnionSubst kvs = some opt) :
    clean_schema_recursive (.obj kvs) = clean_schema_recursive opt := by
  rw [clean_schema_recursive, h]

/-- A dict option whose `"type"` is the string `"null"` — the "null
alternative" of a nullable union. -/
def isNullTypeDict : JVal → Bool
  | .obj kvs =>
    match kvs.lookup "type" with
    | some (.str s) => s == "null"
    | _ => false
  | _ => false

/-- An `inputSchema` whose nested property node carries the vendor key
`"format"`: `{"type": "object", "properties": {"x": {"type": "string",
"format": "date-time"}}}`. -/
def c2Schema : JVal :=
  .obj [("type", .str "object"),
        ("properties",
          .obj [("x", .obj [("type", .str "string"),
                            ("format", .str "date-time")])])]

/-- Options of a nullable union: a null-typed alternative followed by a
string-typed one. -/
def c6Opts : List JVal :=
  [.obj [("type", .str "null")], .obj [("type", .str "string")]]

/-- A demo tool call with raw argument text `"\x7b\x7d"` (the empty JSON
object). -/
def oaToolCallDemo : OAToolCall := ⟨"id1", "execute_mongodb_query", "\x7b\x7d"⟩

/-- OpenAI-side scripted run: the first model call requests one tool,
the second returns text; the tool host reports content `"boom"` with the
error flag SET. -/
def oaEnvErrFlag : OAEnv :=
  ⟨fun _ msgs =>
      if msgs.length == 2 then ⟨none, [oaToolCallDemo]⟩
      else ⟨some "summary", []⟩,
    fun _ _ => .ok ⟨["boom"], true⟩,
    fun _ => .ok (.obj [])⟩

/-- Identical to `oaEnvErrFlag` except that the tool host reports the
very same content with the error flag CLEAR. -/
def oaEnvOkFlag : OAEnv :=
  ⟨fun _ msgs =>
      if msgs.length == 2 then ⟨none, [oaToolCallDemo]⟩
      else ⟨some "summary", []⟩,
    fun _ _ => .ok ⟨["boom"], false⟩,
    fun _ => .ok (.obj [])⟩

/-- OpenAI-side model that requests a tool on every in-loop call and
answers `"forced answer"` on the final tools-disabled call. -/
def oaEnvAllTools : OAEnv :=
  ⟨fun withTools _ =>
      if withTools then ⟨none, [oaToolCallDemo]⟩
      else ⟨some "forced answer", []⟩,
    fun _ _ => .ok ⟨["ok"], false⟩,
    fun _ => .ok (.obj [])⟩

/-- A demo Gemini function call whose arguments are already a dict. -/
def gCallDemo : GFunctionCall := ⟨"get_mongodb_collections", .parsed (.obj [])⟩

/-- Google-side model that requests a function call on every in-loop
call and returns text on the tools-disabled final call. -/
def gEnvAllTools : GEnv :=
  ⟨fun withTools _ =>
      if withTools then ⟨"model", [GPart.ofCall gCallDemo]⟩
      else ⟨"model", [GPart.ofText "forced answer"]⟩,
    fun _ _ => .ok ⟨["ok"], false⟩,
    fun _ => .error "unused"⟩

/-- Model whose every response is plain text (no tool calls), OpenAI
side. -/
def oaEnvTextOnly : OAEnv :=
  ⟨fun _ _ => ⟨some "direct answer", []⟩,
    fun _ _ => .ok ⟨[], false⟩,
    fun _ => .ok .null⟩

/-- Model whose every response is one plain text part, Google side. -/
def gEnvTextOnly : GEnv :=
  ⟨fun _ _ => ⟨"model", [GPart.ofText "direct answer"]⟩,
    fun _ _ => .ok ⟨[], false⟩,
    fun _ => .ok .null⟩

/-- OpenAI-side scripted run whose tool call carries malformed JSON
arguments: `json.loads` raises. -/
def oaEnvBadJson : OAEnv :=
  ⟨fun _ msgs =>
      if msgs.length == 2 then ⟨none, [⟨"id1", "toolA", "not json"⟩]⟩
      else ⟨some "explained", []⟩,
    fun _ _ => .ok ⟨["ok"], false⟩,
    fun _ => .error "Expecting value: line 1 column 1 (char 0)"⟩

/-- Google-side scripted run whose function call carries malformed raw
text arguments. -/
def gEnvBadJson : GEnv :=
  ⟨fun _ contents =>
      if contents.length == 1 then
        ⟨"model", [GPart.ofCall ⟨"toolA", .raw "not json"⟩]⟩
      else ⟨"model", [GPart.ofText "explained"]⟩,
    fun _ _ => .ok ⟨["ok"], false⟩,
    fun _ => .error "Expecting value: line 1 column 1 (char 0)"⟩

/-- Google-side scripted run with an error-flagged tool response. -/
def gEnvErrFlag : GEnv :=
  ⟨fun _ contents =>
      if contents.length == 1 then ⟨"model", [GPart.ofCall gCallDemo]⟩
      else ⟨"model", [GPart.ofText "explained"]⟩,
    fun _ _ => .ok ⟨["boom"], true⟩,
    fun _ => .error "unused"⟩

/-- The id a `role="tool"` message is tagged with, if any. -/
def OAMsg.tagOf : OAMsg → Option String
  | .tool id _ => some id
  | _ => none

/-- Every tool message produced by the OpenAI loop is tagged with the id
of the tool call it came from, whatever branch of the `try`/`except` was
taken. -/
theorem oaToolMsg_tagOf (env : OAEnv) (tc : OAToolCall) :
    OAMsg.tagOf (oaToolMsg env tc) = some tc.id := by
  cases hp : env.parseJson tc.arguments with
  | error e => simp [oaToolMsg, hp, OAMsg.tagOf]
  | ok args =>
    cases hc : env.callTool tc.name args with
    | error e => simp [oaToolMsg, hp, hc, OAMsg.tagOf]
    | ok r =>
      cases hr : r.isError <;> simp [oaToolMsg, hp, hc, hr, OAMsg.tagOf]

/-- Every function-response part produced by the Google loop carries the
name of the function call it came from. -/
theorem gToolPart_name (env : GEnv) (fc : GFunctionCall) :
    (gToolPart env fc).function_response.map Prod.fst = some fc.name := by
  cases hfa : fc.args with
  | parsed v =>
    cases hc : env.callTool fc.name v with
    | error e => simp [gToolPart, hfa, hc, GPart.ofResponse]
    | ok r =>
      cases hr : r.isError <;> simp [gToolPart, hfa, hc, hr, GPart.ofResponse]
  | raw s =>
    cases hp : env.parseJson s with
    | error e => simp [gToolPart, hfa, hp, GPart.ofResponse]
    | ok args =>
      cases hc : env.callTool fc.name args with
      | error e => simp [gToolPart, hfa, hp, hc, GPart.ofResponse]
      | ok r =>
        cases hr : r.isError <;> simp [gToolPart, hfa, hp, hc, hr, GPart.ofResponse]

/-- When the model's response carries tool calls, one OpenAI iteration
appends the assistant turn followed by one tool turn per call — in the
model's order — and continues the loop with one more model call made. -/
theorem oaLoop_tool_step (env : OAEnv) (messages : List OAMsg)
    (n calls : Nat)
    (h : (env.model true messages).tool_calls.isEmpty = false) :
    oaLoop env messages (n + 1) calls =
      oaLoop env (messages ++
        OAMsg.assistant (env.model true messages).content
          (env.model true messages).tool_calls ::
        (env.model true messages).tool_calls.map (oaToolMsg env)) n
        (calls + 1) := by
  rw [oaLoop]
  simp only [h, Bool.false_eq_true, if_false]
  congr 1
  simp

/-- When some part of the model's response carries a function call, one
Google iteration appends the assistant content followed by one
`role="function"` content holding the function responses in order, and
continues the loop with one more model call made. -/
theorem gLoop_tool_step (env : GEnv) (contents : List GContent)
    (n calls : Nat)
    (h : (env.model true contents).parts.any
      (fun p => p.function_call.isSome) = true)
    (hfc : ((env.model true contents).parts.filterMap
      (fun p => p.function_call.map (gToolPart env))).isEmpty = false) :
    gLoop env contents (n + 1) calls =
      gLoop env (contents ++ [env.model true contents] ++
        [⟨"function", (env.model true contents).parts.filterMap
          (fun p => p.function_call.map (gToolPart env))⟩]) n
        (calls + 1) := by
  rw [gLoop]
  simp only [h, if_true, hfc, Bool.false_eq_true, if_false]

/-- C9: `convert_objectids` replaces every `ObjectId` anywhere in an
arbitrarily nested structure by its string form (`str(obj)` = its hex),
leaves ObjectId-free input — dict keys, list order, nesting, and all
non-ObjectId leaves — entirely unchanged, preserves dict key sequences
and list lengths in general, and consequently the lists returned by
`execute_mongodb_query` and `get_users_by_city` (which pass their
materialized results through `convert_objectids`) never contain an
`ObjectId` value. -/
theorem C9_convert_objectids_spec :
    (∀ v : MVal, hasObjectId (convert_objectids v) = false) ∧
    (∀ hex : String, convert_objectids (.objectId hex) = .mstr hex) ∧
    (∀ v : MVal, hasObjectId v = false → convert_objectids v = v) ∧
    (∀ d : List (String × MVal),
      (convertMPairs d).map Prod.fst = d.map Prod.fst) ∧
    (∀ l : List MVal, (convertMList l).length = l.length) ∧
    (∀ (collection : List MVal) (queryMatches : MVal → Bool)
        (projection : Option (MVal → MVal)) (limit : Option Int)
        (sort : Option (List MVal → List MVal)),
      hasObjectIdList
        (execute_mongodb_query collection queryMatches projection limit sort)
        = false) ∧
    (∀ (users : List MVal) (cityMatches : MVal → Bool)
        (projection : Option (MVal → MVal)) (limit : Option Int)
        (sort : Option (List MVal → List MVal)),
      hasObjectIdList
        (get_users_by_city users cityMatches projection limit sort)
        = false) := by
  refine ⟨hasObjectId_convert, fun hex => rfl, convert_eq_self_of_no_objectId,
    convertMPairs_keys, convertMList_length, ?_, ?_⟩
  · intro collection queryMatches projection limit sort
    exact hasObjectIdList_convert _
  · intro users cityMatches projection limit sort
    exact hasObjectIdList_convert _

/-- Witness for C9: the identity conjunct applied to a concrete
ObjectId-free document. -/
theorem C9_witness :
    convert_objectids (.dict [("name", .mstr "asha"), ("age", .mint 30)]) =
      .dict [("name", .mstr "asha"), ("age", .mint 30)] :=
  C9_convert_objectids_spec.2.2.1 _ (by rfl)

/-- C10: in `execute_mongodb_query` and `get_users_by_city` the limit is
guarded by Python truthiness (`if limit:`), so `limit = 0` behaves
exactly like `limit = None`: every matching document is returned
(converted), not zero documents. -/
theorem C10_falsy_limit_is_no_limit :
    (∀ (collection : List MVal) (queryMatches : MVal → Bool)
        (projection : Option (MVal → MVal))
        (sort : Option (List MVal → List MVal)),
      execute_mongodb_query collection queryMatches projection (some 0) sort =
        execute_mongodb_query collection queryMatches projection none sort) ∧
    (∀ (users : List MVal) (cityMatches : MVal → Bool)
        (projection : Option (MVal → MVal))
        (sort : Option (List MVal → List MVal)),
      get_users_by_city users cityMatches projection (some 0) sort =
        get_users_by_city users cityMatches projection none sort) ∧
    (∀ (collection : List MVal) (queryMatches : MVal → Bool),
      execute_mongodb_query collection queryMatches none (some 0) none =
        convertMList (collection.filter queryMatches)) ∧
    (∀ (collection : List MVal) (queryMatches : MVal → Bool),
      (execute_mongodb_query collection queryMatches none (some 0) none).length
        = (collection.filter queryMatches).length) := by
  refine ⟨?_, ?_, ?_, ?_⟩
  · intro collection queryMatches projection sort
    simp [execute_mongodb_query, mongoQueryCore]
  · intro users cityMatches projection sort
    simp [get_users_by_city, mongoQueryCore]
  · intro collection queryMatches
    simp [execute_mongodb_query, mongoQueryCore]
  · intro collection queryMatches
    simp [execute_mongodb_query, mongoQueryCore, convertMList_length]

/-- Counterexample to C2: for the tool schema `c2Schema` the normalized
parameters produced by `MCPGoogleClient.get_mcp_tools` still contain the
vendor key `"format"` in the nested property node, because the whitelist
`{type, properties, required, description, title, default, enum}` is
applied at the top level only — so the field set is NOT a subset of the
whitelist at every node. -/
theorem C2_counterexample :
    allKeysWhitelisted (.obj (google_tool_parameters c2Schema)) = false := by
  simp [c2Schema, google_tool_parameters, objFields, clean_schema_recursive,
    cleanPairs, cleanList, findUnionSubst, firstGoodOption, isUnionKey,
    skippedKeys, googleWhitelist, allKeysWhitelisted,
    allKeysWhitelistedPairs, allKeysWhitelistedList]

/-- C2 as amended: the Google client's normalization removes, at every
node recursively, exactly the keys `additional_properties`,
`additionalProperties`, `examples` and the `any_of`/`anyOf` union
constructs; the provider whitelist is enforced only on the top-level
field set of each tool's schema; and the OpenAI client's
`get_mcp_tools` performs no schema normalization at all. -/
theorem C2_amended_normalization :
    (∀ s : JVal, noBadKeys (clean_schema_recursive s) = true) ∧
    (∀ s : JVal, (google_tool_parameters s).all
      (fun kv => googleWhitelist.contains kv.1) = true) ∧
    (∀ s : JVal, openai_tool_parameters s = s) :=
  ⟨noBadKeys_clean, google_tool_parameters_keys, fun _ => rfl⟩

/-- C6: a schema node whose first `any_of`/`anyOf` key has options
including a null-typed alternative is replaced, by
`clean_schema_recursive`, with the recursively cleaned first non-null
dict branch — the null alternative (and every sibling key of the node)
is discarded — and no `any_of`/`anyOf` key survives anywhere in the
output. -/
theorem C6_nullable_union_substitution
    (pre post : List (String × JVal)) (k : String) (opts : List JVal)
    (opt : JVal)
    (hk : isUnionKey k = true)
    (hpre : pre.all (fun kv => !(isUnionKey kv.1)) = true)
    (hnull : opts.any isNullTypeDict = true)
    (hfirst : firstGoodOption opts = some opt) :
    clean_schema_recursive (.obj (pre ++ (k, .arr opts) :: post)) =
      clean_schema_recursive opt ∧
    noUnionKeys (clean_schema_recursive (.obj (pre ++ (k, .arr opts) :: post)))
      = true := by
  have hsubst : findUnionSubst (pre ++ (k, .arr opts) :: post) = some opt := by
    rw [findUnionSubst_append_of_no_union pre _ hpre, findUnionSubst]
    simp only [hk, if_true, unionOptions, hfirst]
  exact ⟨clean_of_findUnionSubst_some hsubst,
    noUnionKeys_of_noBadKeys _ (noBadKeys_clean _)⟩

/-- Witness for C6 at a concrete nullable union
`{"description": "d", "anyOf": [{"type": "null"}, {"type": "string"}]}`. -/
theorem C6_witness :
    clean_schema_recursive
        (.obj ([("description", JVal.str "d")] ++
          ("anyOf", JVal.arr c6Opts) :: [])) =
      clean_schema_recursive (.obj [("type", JVal.str "string")]) ∧
    noUnionKeys (clean_schema_recursive
        (.obj ([("description", JVal.str "d")] ++
          ("anyOf", JVal.arr c6Opts) :: []))) = true :=
  C6_nullable_union_substitution [("description", .str "d")] [] "anyOf"
    c6Opts (.obj [("type", .str "string")]) (by rfl) (by rfl)
    (by simp [c6Opts, isNullTypeDict, List.lookup]) (by rfl)

/-- C1: both orchestration loops make at most `max_iterations + 1` model
calls for every model/tool-host behaviour, and at exhaustion each makes
one final model call with tools disabled.  The OpenAI client then
returns that call's text content, as the claim states; the Google
client, however, evaluates `final_response.choices[0].message.content`
on a Gemini response — which has `candidates`, not `choices` — so the
run raises `AttributeError` instead of returning the final call's text:
with a model that requests tools on every iteration and
`max_iterations = 2`, exactly 3 model calls are made and the outcome is
the `AttributeError`, not a text answer. -/
theorem C1_model_call_bound_and_google_exhaustion_bug :
    (∀ (env : OAEnv) (q : String) (n : Nat),
      (oaProcessQuery env q n).modelCalls ≤ n + 1) ∧
    (∀ (env : GEnv) (q : String) (n : Nat),
      (gProcessQuery env q n).modelCalls ≤ n + 1) ∧
    (oaProcessQuery oaEnvAllTools "list the users" 2).modelCalls = 3 ∧
    (oaProcessQuery oaEnvAllTools "list the users" 2).answer
      = some "forced answer" ∧
    (gProcessQuery gEnvAllTools "list the users" 2).modelCalls = 3 ∧
    (gProcessQuery gEnvAllTools "list the users" 2).answer
      = .error gFinalCallError := by
  refine ⟨?_, ?_, rfl, rfl, rfl, rfl⟩
  · intro env q n
    simpa [oaProcessQuery] using
      oaLoop_calls_le env n [OAMsg.system oaSystemPrompt, OAMsg.user q] 0
  · intro env q n
    simpa [gProcessQuery] using
      gLoop_calls_le env n [⟨"user", [GPart.ofText q]⟩] 0

/-- C5: when the model's first response carries no tool-invocation
requests, each client's `process_query` makes exactly one model call and
returns that response's text content verbatim — the OpenAI client
returns `assistant_message.content`, the Google client
`assistant_message.parts[0].text` (hence the hypothesis that the
response has at least one part; an empty `parts` list would raise
`IndexError`). -/
theorem C5_no_tool_calls_single_model_call (env : OAEnv) (genv : GEnv)
    (q : String) (n : Nat) (hn : 0 < n)
    (hoa : (env.model true
      [OAMsg.system oaSystemPrompt, OAMsg.user q]).tool_calls = [])
    (p : GPart) (rest : List GPart)
    (hg : (genv.model true [⟨"user", [GPart.ofText q]⟩]).parts = p :: rest)
    (hp : p.function_call = none)
    (hrest : rest.all (fun x => x.function_call.isNone) = true) :
    (oaProcessQuery env q n).answer =
      (env.model true [OAMsg.system oaSystemPrompt, OAMsg.user q]).content ∧
    (oaProcessQuery env q n).modelCalls = 1 ∧
    (gProcessQuery genv q n).answer = .ok p.text ∧
    (gProcessQuery genv q n).modelCalls = 1 := by
  obtain ⟨m, rfl⟩ : ∃ m, n = m + 1 := ⟨n - 1, by omega⟩
  have hany : (genv.model true [⟨"user", [GPart.ofText q]⟩]).parts.any
      (fun x => x.function_call.isSome) = false := by
    rw [hg, List.any_eq_false]
    intro x hx
    rcases List.mem_cons.mp hx with h1 | h2
    · subst h1; simp [hp]
    · simpa using List.all_eq_true.mp hrest x h2
  refine ⟨?_, ?_, ?_, ?_⟩
  · simp [oaProcessQuery, oaLoop, hoa]
  · simp [oaProcessQuery, oaLoop, hoa]
  · rw [gProcessQuery, gLoop]
    simp only [hany, Bool.false_eq_true, if_false]
    simp [hg]
  · rw [gProcessQuery, gLoop]
    simp only [hany, Bool.false_eq_true, if_false]
    simp [hg]

/-- Witness for C5: text-only models answer in one model call. -/
theorem C5_witness :
    (oaProcessQuery oaEnvTextOnly "hello" 5).answer = some "direct answer" ∧
    (oaProcessQuery oaEnvTextOnly "hello" 5).modelCalls = 1 ∧
    (gProcessQuery gEnvTextOnly "hello" 5).answer = .ok (some "direct answer") ∧
    (gProcessQuery gEnvTextOnly "hello" 5).modelCalls = 1 :=
  C5_no_tool_calls_single_model_call oaEnvTextOnly gEnvTextOnly "hello" 5
    (by decide) (by rfl) (GPart.ofText "direct answer") [] (by rfl) (by rfl)
    (by rfl)

/-- C8: the conversation transcript is append-only — for every
environment, starting transcript, remaining iteration budget and call
count, the transcript at the end of the run is the starting transcript
with new turns appended at the end; no prior turn is mutated or
removed.  (Each individual transition appends as well: the in-loop steps
append the assistant turn and the tool-result turns, as the
`oaLoop`/`gLoop` equations show, and the terminal steps leave the
transcript unchanged or append only the final assistant turn.) -/
theorem C8_transcript_append_only :
    (∀ (env : OAEnv) (n : Nat) (messages : List OAMsg) (calls : Nat),
      ∃ t, (oaLoop env messages n calls).transcript = messages ++ t) ∧
    (∀ (env : GEnv) (n : Nat) (contents : List GContent) (calls : Nat),
      ∃ t, (gLoop env contents n calls).transcript = contents ++ t) :=
  ⟨oaLoop_transcript_extends, gLoop_transcript_extends⟩

/-- C7: within one iteration, every tool-invocation request of the
assistant response is executed and answered in exactly the order the
model returned them — the OpenAI loop appends the assistant turn
followed by `tool_calls.map (oaToolMsg env)` and each element is tagged
with the id of the call at the same position; the Google loop appends
the assistant content followed by one `role="function"` content whose
parts are the function responses in part order, each tagged with the
originating call's name. -/
theorem C7_sequential_ordered_tagged (env : OAEnv) (genv : GEnv)
    (messages : List OAMsg) (contents : List GContent) (n calls : Nat)
    (hoa : (env.model true messages).tool_calls.isEmpty = false)
    (hg : (genv.model true contents).parts.any
      (fun p => p.function_call.isSome) = true)
    (hfc : ((genv.model true contents).parts.filterMap
      (fun p => p.function_call.map (gToolPart genv))).isEmpty = false) :
    oaLoop env messages (n + 1) calls =
      oaLoop env (messages ++
        OAMsg.assistant (env.model true messages).content
          (env.model true messages).tool_calls ::
        (env.model true messages).tool_calls.map (oaToolMsg env)) n
        (calls + 1) ∧
    (∀ tcs : List OAToolCall,
      (tcs.map (oaToolMsg env)).map OAMsg.tagOf =
        tcs.map (fun tc => some tc.id)) ∧
    gLoop genv contents (n + 1) calls =
      gLoop genv (contents ++ [genv.model true contents] ++
        [⟨"function", (genv.model true contents).parts.filterMap
          (fun p => p.function_call.map (gToolPart genv))⟩]) n
        (calls + 1) ∧
    (∀ fcs : List GFunctionCall,
      (fcs.map (gToolPart genv)).map
          (fun pt => pt.function_response.map Prod.fst) =
        fcs.map (fun fc => some fc.name)) := by
  refine ⟨oaLoop_tool_step env messages n calls hoa, ?_,
    gLoop_tool_step genv contents n calls hg hfc, ?_⟩
  · intro tcs
    induction tcs with
    | nil => rfl
    | cons tc rest ih => simp [ih, oaToolMsg_tagOf]
  · intro fcs
    induction fcs with
    | nil => rfl
    | cons fc rest ih => simp [ih, gToolPart_name]

/-- Witness for C7: the positional tagging conjunct at a concrete
environment and tool-call list. -/
theorem C7_witness :
    ([oaToolCallDemo].map (oaToolMsg oaEnvAllTools)).map OAMsg.tagOf =
      [some "id1"] :=
  (C7_sequential_ordered_tagged oaEnvAllTools gEnvAllTools
    [OAMsg.system oaSystemPrompt, OAMsg.user "q"]
    [⟨"user", [GPart.ofText "q"]⟩] 0 0 (by rfl) (by rfl)
    (by rfl)).2.1 [oaToolCallDemo]

/-- Counterexample to C3: the OpenAI client never consults
`result.isError`.  Two runs whose tool host responses differ only in
the error flag produce identical outcomes — in particular identical
transcripts, in which the error-flagged result is appended as the plain
tool message `.tool "id1" "boom\n"` with no error marking of any
kind — so the ToolResult appended to the conversation is NOT marked as
an error. -/
theorem C3_counterexample :
    oaProcessQuery oaEnvErrFlag "q" 5 = oaProcessQuery oaEnvOkFlag "q" 5 ∧
    (oaProcessQuery oaEnvErrFlag "q" 5).transcript =
      [.system oaSystemPrompt, .user "q", .assistant none [oaToolCallDemo],
       .tool "id1" "boom\n", .assistant (some "summary") []] := by
  exact ⟨by decide, by decide⟩

/-- C3 as amended: an error-flagged tool host response is downgraded and
fed back, and the loop continues to the next iteration in both clients;
but only the Google client tags the result as an error
(`{"error": content}` function response) — the OpenAI client ignores
`isError` and appends the concatenated content as an ordinary tool
message, indistinguishable from a success with the same content. -/
theorem C3_amended_error_flag_handling (genv : GEnv) (env : OAEnv)
    (fc : GFunctionCall) (v : JVal) (r : ToolResponse) (tc : OAToolCall)
    (args : JVal)
    (hfa : fc.args = .parsed v)
    (hgc : genv.callTool fc.name v = .ok r)
    (herr : r.isError = true)
    (hop : env.parseJson tc.arguments = .ok args)
    (hoc : env.callTool tc.name args = .ok r)
    (messages : List OAMsg) (contents : List GContent) (n calls : Nat)
    (hoa : (env.model true messages).tool_calls.isEmpty = false)
    (hg : (genv.model true contents).parts.any
      (fun p => p.function_call.isSome) = true)
    (hfc : ((genv.model true contents).parts.filterMap
      (fun p => p.function_call.map (gToolPart genv))).isEmpty = false) :
    gToolPart genv fc =
      GPart.ofResponse fc.name (.error (concatBlocks r.content)) ∧
    oaToolMsg env tc = .tool tc.id (concatBlocks r.content) ∧
    gLoop genv contents (n + 1) calls =
      gLoop genv (contents ++ [genv.model true contents] ++
        [⟨"function", (genv.model true contents).parts.filterMap
          (fun p => p.function_call.map (gToolPart genv))⟩]) n
        (calls + 1) ∧
    oaLoop env messages (n + 1) calls =
      oaLoop env (messages ++
        OAMsg.assistant (env.model true messages).content
          (env.model true messages).tool_calls ::
        (env.model true messages).tool_calls.map (oaToolMsg env)) n
        (calls + 1) := by
  refine ⟨?_, ?_, gLoop_tool_step genv contents n calls hg hfc,
    oaLoop_tool_step env messages n calls hoa⟩
  · simp [gToolPart, hfa, hgc, herr]
  · simp [oaToolMsg, hop, hoc]

/-- Witness for C3's amended statement: concrete error-flagged runs on
both clients. -/
theorem C3_witness :
    gToolPart gEnvErrFlag gCallDemo =
      GPart.ofResponse "get_mongodb_collections"
        (.error (concatBlocks ["boom"])) ∧
    oaToolMsg oaEnvErrFlag oaToolCallDemo =
      .tool "id1" (concatBlocks ["boom"]) := by
  have h := C3_amended_error_flag_handling gEnvErrFlag oaEnvErrFlag
    gCallDemo (.obj []) ⟨["boom"], true⟩ oaToolCallDemo (.obj [])
    (by rfl) (by rfl) (by rfl) (by rfl) (by rfl)
    [OAMsg.system oaSystemPrompt, OAMsg.user "q"]
    [⟨"user", [GPart.ofText "q"]⟩] 0 0 (by rfl) (by rfl) (by rfl)
  exact ⟨h.1, h.2.1⟩

/-- C4: a tool invocation whose argument payload is textual but not
valid JSON does not raise out of the loop — the `json.loads` exception
is caught, the call is downgraded to an error result fed back to the
model (`"Error executing tool: ..."`; the Google client additionally
tags it `{"error": ...}`), and the loop continues to the next
iteration. -/
theorem C4_malformed_json_downgraded (env : OAEnv) (genv : GEnv)
    (tc : OAToolCall) (fc : GFunctionCall) (s e1 e2 : String)
    (hop : env.parseJson tc.arguments = .error e1)
    (hfa : fc.args = .raw s)
    (hgp : genv.parseJson s = .error e2)
    (messages : List OAMsg) (contents : List GContent) (n calls : Nat)
    (hoa : (env.model true messages).tool_calls.isEmpty = false)
    (hg : (genv.model true contents).parts.any
      (fun p => p.function_call.isSome) = true)
    (hfc : ((genv.model true contents).parts.filterMap
      (fun p => p.function_call.map (gToolPart genv))).isEmpty = false) :
    oaToolMsg env tc = .tool tc.id ("Error executing tool: " ++ e1) ∧
    gToolPart genv fc =
      GPart.ofResponse fc.name (.error ("Error executing tool: " ++ e2)) ∧
    oaLoop env messages (n + 1) calls =
      oaLoop env (messages ++
        OAMsg.assistant (env.model true messages).content
          (env.model true messages).tool_calls ::
        (env.model true messages).tool_calls.map (oaToolMsg env)) n
        (calls + 1) ∧
    gLoop genv contents (n + 1) calls =
      gLoop genv (contents ++ [genv.model true contents] ++
        [⟨"function", (genv.model true contents).parts.filterMap
          (fun p => p.function_call.map (gToolPart genv))⟩]) n
        (calls + 1) := by
  refine ⟨?_, ?_, oaLoop_tool_step env messages n calls hoa,
    gLoop_tool_step genv contents n calls hg hfc⟩
  · simp [oaToolMsg, hop]
  · simp [gToolPart, hfa, hgp]

/-- Witness for C4: concrete malformed-JSON runs on both clients. -/
theorem C4_witness :
    oaToolMsg oaEnvBadJson ⟨"id1", "toolA", "not json"⟩ =
      .tool "id1"
        ("Error executing tool: " ++
          "Expecting value: line 1 column 1 (char 0)") ∧
    gToolPart gEnvBadJson ⟨"toolA", .raw "not json"⟩ =
      GPart.ofResponse "toolA"
        (.error ("Error executing tool: " ++
          "Expecting value: line 1 column 1 (char 0)")) := by
  have h := C4_malformed_json_downgraded oaEnvBadJson gEnvBadJson
    ⟨"id1", "toolA", "not json"⟩ ⟨"toolA", .raw "not json"⟩ "not json"
    "Expecting value: line 1 column 1 (char 0)"
    "Expecting value: line 1 column 1 (char 0)"
    (by rfl) (by rfl) (by rfl)
    [OAMsg.system oaSystemPrompt, OAMsg.user "q"]
    [⟨"user", [GPart.ofText "q"]⟩] 0 0 (by rfl) (by rfl) (by rfl)
  exact ⟨h.1, h.2.1⟩
